import Mathlib

/-!
Verification of the `fileuploader` command-line tool (a Go program that
authenticates to Telegram and uploads a file).  The Go source in
`main.go` is shallowly embedded below: pure helper functions become Lean
functions on `String`/`Nat`, the upload progress accounting becomes a
fold over the sequence of read sizes, and the concurrent progress
reporter becomes an explicit labelled transition system.
-/

namespace FileUploader

/-- ASCII lowercasing of a single character, as `strings.ToLower` acts on
the ASCII range (the only range exercised by extensions and y/yes answers). -/
def toLowerChar (c : Char) : Char :=
  if 'A' ≤ c ∧ c ≤ 'Z' then Char.ofNat (c.toNat + 32) else c

/-- Embedding of Go `strings.ToLower` (restricted to its ASCII action). -/
def goToLower (s : String) : String :=
  String.mk (s.data.map toLowerChar)

/-- Suffix of a character list starting at its last `'.'`, if any.
Helper for `goExt`. -/
def extSuffix : List Char → Option (List Char)
  | [] => none
  | c :: cs =>
    match extSuffix cs with
    | some e => some e
    | none => if c = '.' then some (c :: cs) else none

/-- Embedding of Go `filepath.Ext` on a base file name: the suffix
beginning at the final dot, empty if there is no dot. -/
def goExt (s : String) : String :=
  match extSuffix s.data with
  | some e => String.mk e
  | none => ""

/-- The image extension list of `isImageFile` (main.go line 418). -/
def imageExts : List String :=
  [".jpg", ".jpeg", ".png", ".gif", ".webp", ".bmp"]

/-- The video extension list of `isVideoFile` (main.go line 428). -/
def videoExts : List String :=
  [".mp4", ".mov", ".avi", ".mkv", ".webm", ".flv", ".3gp"]

/-- Embedding of `isImageFile`: the Go loop over `imageExts` returns true
iff the extension occurs in the list. -/
def isImageFile (ext : String) : Bool :=
  imageExts.contains ext

/-- Embedding of `isVideoFile`: the Go loop over `videoExts` returns true
iff the extension occurs in the list. -/
def isVideoFile (ext : String) : Bool :=
  videoExts.contains ext

/-- Embedding of `getMimeType` (main.go lines 437-467): a switch on the
lowercased extension of the file name, defaulting to octet-stream. -/
def getMimeType (filename : String) : String :=
  let ext := goToLower (goExt filename)
  if ext = ".jpg" ∨ ext = ".jpeg" then "image/jpeg"
  else if ext = ".png" then "image/png"
  else if ext = ".gif" then "image/gif"
  else if ext = ".webp" then "image/webp"
  else if ext = ".mp4" then "video/mp4"
  else if ext = ".mov" then "video/quicktime"
  else if ext = ".avi" then "video/x-msvideo"
  else if ext = ".mkv" then "video/x-matroska"
  else if ext = ".mp3" then "audio/mpeg"
  else if ext = ".wav" then "audio/wav"
  else if ext = ".pdf" then "application/pdf"
  else if ext = ".zip" then "application/zip"
  else "application/octet-stream"

/-- The extensions the `getMimeType` switch recognizes (its non-default cases). -/
def mimeTableKeys : List String :=
  [".jpg", ".jpeg", ".png", ".gif", ".webp", ".mp4", ".mov", ".avi",
   ".mkv", ".mp3", ".wav", ".pdf", ".zip"]

/-- Media kind selected by the `switch` in `uploadFile` (main.go lines 277-306). -/
inductive MediaKind
  | photo
  | video
  | document
  deriving DecidableEq, Repr

/-- The media value built by `uploadFile`: kind, the `SupportsStreaming`
video attribute, the MIME type (absent for photos, which carry none in the
Go code), and the `DocumentAttributeFilename` display name (absent for
photos). -/
structure MediaDescriptor where
  kind : MediaKind
  supportsStreaming : Bool
  mimeType : Option String
  fileNameAttr : Option String
  deriving DecidableEq, Repr

/-- Embedding of the media-construction `switch` of `uploadFile`
(main.go lines 277-306): lowercase the extension of the file name, test
`isImageFile`, then `isVideoFile`, else build a generic document. -/
def classifyMedia (fileName : String) : MediaDescriptor :=
  let ext := goToLower (goExt fileName)
  if isImageFile ext then
    { kind := MediaKind.photo, supportsStreaming := false,
      mimeType := none, fileNameAttr := none }
  else if isVideoFile ext then
    { kind := MediaKind.video, supportsStreaming := true,
      mimeType := some (getMimeType fileName), fileNameAttr := some fileName }
  else
    { kind := MediaKind.document, supportsStreaming := false,
      mimeType := some (getMimeType fileName), fileNameAttr := some fileName }

/-- The same `switch` with the image and video cases tested in the
opposite order; used to state that the kind decision is order-independent. -/
def classifyMediaSwapped (fileName : String) : MediaDescriptor :=
  let ext := goToLower (goExt fileName)
  if isVideoFile ext then
    { kind := MediaKind.video, supportsStreaming := true,
      mimeType := some (getMimeType fileName), fileNameAttr := some fileName }
  else if isImageFile ext then
    { kind := MediaKind.photo, supportsStreaming := false,
      mimeType := none, fileNameAttr := none }
  else
    { kind := MediaKind.document, supportsStreaming := false,
      mimeType := some (getMimeType fileName), fileNameAttr := some fileName }

/-! ### Source selection in `main` (main.go lines 57-67) -/

/-- Embedding of the source-selection logic of `main`: `finalFilePath`
starts as the `--file` value and is replaced by the downloaded temp path
whenever `--url` is non-empty (successful download case). -/
def finalFilePath (filePath fileURL tmpPath : String) : String :=
  if fileURL ≠ "" then tmpPath else filePath

/-! ### Session file path in `run` (main.go lines 137-145) -/

/-- Embedding of `strings.ReplaceAll(config.Phone, "+", "")`: every `'+'`
character is removed; all other characters are kept. -/
def sanitizePhone (phone : String) : String :=
  String.mk (phone.data.filter (fun c => c ≠ '+'))

/-- Embedding of the session path construction in `run`:
`filepath.Join(filepath.Join(".", "sessions"), sanitized + ".session")`. -/
def sessionPath (phone : String) : String :=
  "sessions/" ++ sanitizePhone phone ++ ".session"

/-- The digit subsequence of a phone string.  This definition follows the
spec's words ("non-numeric characters stripped") and exists only to state
the claim about session-file keying; it is not part of the source. -/
def digitsOf (phone : String) : String :=
  String.mk (phone.data.filter Char.isDigit)

/-! ### The `run` callback (main.go lines 153-175) -/

/-- The coarse actions of the `client.Run` callback.  Interactive prompts
and network authentication calls happen only inside the `authFlow` step
(the `auth.NewFlow` / `IfNecessary` branch); `upload` is the final
`uploadFile` call. -/
inductive RunEvent
  | authFlow
  | upload
  deriving DecidableEq, Repr

/-- Embedding of the `run` callback after a successful status check: the
authentication flow runs exactly when `status.Authorized` is false, then
the upload is performed. -/
def runCallback (authorized : Bool) : List RunEvent :=
  (if !authorized then [RunEvent.authFlow] else []) ++ [RunEvent.upload]

/-! ### Progress accounting (`progressReader.Read`, main.go lines 347-353) -/

/-- Embedding of one `progressReader.Read` call's effect on the progress
counter: the inner read returned `n` bytes, and `bar.Add(n)` runs only
when `n > 0`. -/
def progressRead (counter n : Nat) : Nat :=
  if n > 0 then counter + n else counter

/-- The progress counter after a sequence of reads returning the sizes in
`reads`, starting from `counter`. -/
def runReads (counter : Nat) : List Nat → Nat
  | [] => counter
  | n :: rest => runReads (progressRead counter n) rest

/-! ### Random transfer ID (`generateRandomID`, main.go lines 331-338) -/

/-- Little-endian decoding of a byte sequence into a natural number, as
`binary.Read(rand.Reader, binary.LittleEndian, &id)` decodes the 8 bytes
it draws from the cryptographic source (the signed reinterpretation as
`int64` is a bijection on 64-bit patterns, so distinctness is unaffected). -/
def decodeLE (bs : List Nat) : Nat :=
  bs.foldr (fun b acc => acc * 256 + b) 0

/-- A valid draw from the random source for `generateRandomID`: exactly
8 bytes, each below 256. -/
def ValidBytes (bs : List Nat) : Prop :=
  bs.length = 8 ∧ ∀ b ∈ bs, b < 256

instance : DecidablePred ValidBytes := fun bs => by
  unfold ValidBytes; infer_instance

/-- Embedding of `generateRandomID`, with the random source's 8-byte draw
made an explicit argument: the returned ID is the little-endian decoding
of the full draw. -/
def generateRandomID (randomBytes : List Nat) : Nat :=
  decodeLE randomBytes

/-- Little-endian encoding of a value below `2^64` into 8 bytes; used to
state that the ID ranges over the full 64-bit space. -/
def encodeLE : Nat → Nat → List Nat
  | 0, _ => []
  | k + 1, v => v % 256 :: encodeLE k (v / 256)

/-! ### Terms-of-service acceptance (`termAuth.AcceptTermsOfService`,
main.go lines 383-396) -/

/-- Go `unicode.IsSpace` on the characters `strings.TrimSpace` trims,
restricted to the ASCII and Latin-1 space characters. -/
def goIsSpace (c : Char) : Bool :=
  c = ' ' ∨ c = '\t' ∨ c = '\n' ∨ c = '\x0b' ∨ c = '\x0c' ∨ c = '\r' ∨
  c = '\x85' ∨ c = '\xa0'

/-- Embedding of Go `strings.TrimSpace`: drop leading and trailing
whitespace. -/
def goTrimSpace (s : String) : String :=
  String.mk (((s.data.dropWhile goIsSpace).reverse.dropWhile goIsSpace).reverse)

/-- Embedding of `termAuth.AcceptTermsOfService` given the responder's
answer line: lowercase, trim, then fail unless the result is `"y"` or
`"yes"` (the Go code returns the error `"terms of service not accepted"`;
a responder I/O error path is not modelled since the claim is about the
answer comparison). -/
def acceptTermsOfService (answer : String) : Except String Unit :=
  let a := goTrimSpace (goToLower answer)
  if a ≠ "y" ∧ a ≠ "yes" then Except.error "terms of service not accepted"
  else Except.ok ()

/-! ### The progress/speed reporter goroutine (main.go lines 229-263)

`uploadFile` starts a ticker and a goroutine whose loop `select`s between
`ticker.C` (update the speed display) and `done` (return); after
`u.Upload` returns it executes `close(done)` and then returns itself
(running the deferred `ticker.Stop`).  The interleaving of the main flow
and the goroutine is modelled as a labelled transition system.  Timing is
abstracted: a tick may be pending in `ticker.C` at any moment while the
goroutine is in its loop, so the `reporterTick` step is always enabled
for a running reporter (Go's `select` chooses among ready cases
nondeterministically, so a pending tick may win even after `done` is
closed). -/

/-- Program counter of the main `uploadFile` flow around the `Upload`
call: `u.Upload` in flight; `Upload` returned (success or error) but
`close(done)` not yet executed; `done` closed; `uploadFile` returned. -/
inductive MainPc
  | uploading
  | uploadDone
  | doneClosed
  | returned
  deriving DecidableEq, Repr

/-- Program counter of the reporter goroutine: in its for/select loop, or
returned after receiving from the closed `done` channel. -/
inductive RepPc
  | running
  | exited
  deriving DecidableEq, Repr

/-- Joint state: both program counters plus whether `done` is closed. -/
structure UploadSys where
  main : MainPc
  rep : RepPc
  done : Bool
  deriving DecidableEq, Repr

/-- Observable events of the interleaving. -/
inductive UploadEv
  | uploadReturn
  | closeDone
  | mainReturn
  | reporterTick
  | reporterStop
  deriving DecidableEq, Repr

/-- One interleaved step of `uploadFile` and its reporter goroutine. -/
inductive UStep : UploadSys → UploadEv → UploadSys → Prop
  | uploadReturn (r d) :
      UStep ⟨MainPc.uploading, r, d⟩ UploadEv.uploadReturn ⟨MainPc.uploadDone, r, d⟩
  | closeDone (r) :
      UStep ⟨MainPc.uploadDone, r, false⟩ UploadEv.closeDone ⟨MainPc.doneClosed, r, true⟩
  | mainReturn (r) :
      UStep ⟨MainPc.doneClosed, r, true⟩ UploadEv.mainReturn ⟨MainPc.returned, r, true⟩
  | reporterTick (m d) :
      UStep ⟨m, RepPc.running, d⟩ UploadEv.reporterTick ⟨m, RepPc.running, d⟩
  | reporterStop (m) :
      UStep ⟨m, RepPc.running, true⟩ UploadEv.reporterStop ⟨m, RepPc.exited, true⟩

/-- Multi-step reachability along a trace of events. -/
inductive UReaches : UploadSys → List UploadEv → UploadSys → Prop
  | nil (s) : UReaches s [] s
  | cons {s e s₁ es s₂} : UStep s e s₁ → UReaches s₁ es s₂ → UReaches s (e :: es) s₂

/-- The state at the top of the goroutine and the `Upload` call: reporter
loop started, `done` open, upload in flight. -/
def initUploadSys : UploadSys :=
  ⟨MainPc.uploading, RepPc.running, false⟩

/-- The claim under scrutiny, as a property of the model: whenever the
main flow has returned, the reporter has finished (joined), and no
reporter tick is observable after the `Upload` call returned. -/
def ReporterJoinedClaim : Prop :=
  ∀ tr s, UReaches initUploadSys tr s → s.main = MainPc.returned →
    s.rep = RepPc.exited ∧
    ∀ pre post, tr = pre ++ UploadEv.uploadReturn :: post →
      UploadEv.reporterTick ∉ post

/-! ### Helper lemmas -/

theorem mem_of_image (e : String) (h : isImageFile e = true) : e ∈ imageExts := by
  simpa [isImageFile] using h

theorem mem_of_video (e : String) (h : isVideoFile e = true) : e ∈ videoExts := by
  simpa [isVideoFile] using h

theorem not_image_and_video (e : String) : (isImageFile e && isVideoFile e) = false := by
  by_cases h1 : isImageFile e = true
  · by_cases h2 : isVideoFile e = true
    · exfalso
      have h5 : e ∈ imageExts ∩ videoExts :=
        List.mem_inter_of_mem_of_mem (mem_of_image e h1) (mem_of_video e h2)
      simp [imageExts, videoExts] at h5
    · simp [h2]
  · simp [h1]

theorem video_not_image (e : String) (h : isVideoFile e = true) : isImageFile e = false := by
  have := not_image_and_video e
  cases h1 : isImageFile e <;> simp_all

theorem progressRead_eq (c n : Nat) : progressRead c n = c + n := by
  unfold progressRead; split <;> omega

theorem runReads_eq (c : Nat) (reads : List Nat) : runReads c reads = c + reads.sum := by
  induction reads generalizing c with
  | nil => simp [runReads]
  | cons n rest ih => simp [runReads, progressRead_eq, ih]; omega

/-! ### Claim theorems: media classifier -/

/-- C1: for every file name, the media kind is decided by the lowercased
extension — `photo` exactly when it is in the image set, `video` (with
the supports-streaming attribute) exactly when it is in the video set,
and `document` exactly otherwise. -/
theorem classifyMedia_kind_decided_by_extension (fileName : String) :
    ((classifyMedia fileName).kind = MediaKind.photo ↔
      isImageFile (goToLower (goExt fileName)) = true)
    ∧ ((classifyMedia fileName).kind = MediaKind.video ↔
      isVideoFile (goToLower (goExt fileName)) = true)
    ∧ (classifyMedia fileName).supportsStreaming = isVideoFile (goToLower (goExt fileName))
    ∧ ((classifyMedia fileName).kind = MediaKind.document ↔
        (isImageFile (goToLower (goExt fileName))
          || isVideoFile (goToLower (goExt fileName))) = false) := by
  unfold classifyMedia
  cases h1 : isImageFile (goToLower (goExt fileName))
  · cases h2 : isVideoFile (goToLower (goExt fileName)) <;> simp [h1, h2]
  · cases h2 : isVideoFile (goToLower (goExt fileName))
    · simp [h1, h2]
    · exact absurd (video_not_image _ h2) (by simp [h1])

/-- C7: the MIME type is a deterministic lookup keyed by the lowercased
extension, independent of the kind decision, defaulting to
`application/octet-stream` for extensions outside the table; `.pdf` is a
`document` with MIME `application/pdf`. -/
theorem mime_lookup_by_extension (f g : String) :
    (goToLower (goExt f) = goToLower (goExt g) → getMimeType f = getMimeType g)
    ∧ (goToLower (goExt f) ∉ mimeTableKeys → getMimeType f = "application/octet-stream")
    ∧ getMimeType "x.pdf" = "application/pdf"
    ∧ (classifyMedia "x.pdf").kind = MediaKind.document := by
  refine ⟨?_, ?_, by decide, by decide⟩
  · intro h
    simp only [getMimeType]
    rw [h]
  · intro h
    simp only [mimeTableKeys, List.mem_cons, List.mem_singleton] at h
    push_neg at h
    obtain ⟨h1, h2, h3, h4, h5, h6, h7, h8, h9, h10, h11, h12, h13⟩ := h
    simp only [getMimeType]
    simp [h1, h2, h3, h4, h5, h6, h7, h8, h9, h10, h11, h12, h13]

/-- C7 witness: an unknown extension gives octet-stream, and the lookup
depends only on the lowercased extension. -/
theorem mime_lookup_by_extension_witness :
    getMimeType "a.QT" = "application/octet-stream"
    ∧ getMimeType "a.JPG" = getMimeType "b.jpg" :=
  ⟨(mime_lookup_by_extension "a.QT" "b.jpg").2.1 (by decide),
   (mime_lookup_by_extension "a.JPG" "b.jpg").1 (by decide)⟩

/-- C10: the image and video extension sets are disjoint, so the kind of
every file name is unchanged when the classification cases are tested in
the opposite order. -/
theorem image_video_sets_disjoint (e fileName : String) :
    (isImageFile e && isVideoFile e) = false
    ∧ classifyMedia fileName = classifyMediaSwapped fileName := by
  refine ⟨not_image_and_video e, ?_⟩
  unfold classifyMedia classifyMediaSwapped
  cases h1 : isImageFile (goToLower (goExt fileName))
  · cases h2 : isVideoFile (goToLower (goExt fileName)) <;> simp [h1, h2]
  · cases h2 : isVideoFile (goToLower (goExt fileName))
    · simp [h1, h2]
    · exact absurd (video_not_image _ h2) (by simp [h1])

/-! ### Claim theorems: progress accounting -/

/-- C2: the transferred-byte counter never decreases, a successful read
of `n > 0` bytes increments it by exactly `n`, and after a successful
upload whose reads sum to the file size `S` it equals `S`. -/
theorem progress_counter_monotone_and_exact (c n S : Nat) (reads : List Nat)
    (hS : reads.sum = S) :
    c ≤ progressRead c n
    ∧ (0 < n → progressRead c n = c + n)
    ∧ c ≤ runReads c reads
    ∧ runReads 0 reads = S := by
  refine ⟨?_, fun _ => progressRead_eq c n, ?_, ?_⟩
  · rw [progressRead_eq]; omega
  · rw [runReads_eq]; omega
  · rw [runReads_eq, hS]; omega

/-- C2 witness at a concrete read sequence. -/
theorem progress_counter_witness :
    2 ≤ progressRead 2 3
    ∧ (0 < 3 → progressRead 2 3 = 2 + 3)
    ∧ 2 ≤ runReads 2 [1, 2, 3]
    ∧ runReads 0 [1, 2, 3] = 6 :=
  progress_counter_monotone_and_exact 2 3 6 [1, 2, 3] (by decide)

/-! ### Claim theorems: flag precedence, session keying, auth skip, ToS -/

/-- C4 counterexample: with both `--file` and `--url` supplied, the
upload source is the file downloaded from the URL, not the `--file`
path — the claim that `--file` is preferred fails at this input. -/
theorem file_flag_preferred_false :
    "local.txt" ≠ "" ∧ "http://example.com/f.bin" ≠ ""
    ∧ finalFilePath "local.txt" "http://example.com/f.bin" "/tmp/dl" = "/tmp/dl"
    ∧ finalFilePath "local.txt" "http://example.com/f.bin" "/tmp/dl" ≠ "local.txt" := by
  decide

/-- C4 amended: whenever `--url` is non-empty its downloaded temp path is
the upload source, regardless of `--file`; `--file` is used only when
`--url` is empty. -/
theorem url_overrides_file (fp url tmp : String) :
    (url ≠ "" → finalFilePath fp url tmp = tmp)
    ∧ (url = "" → finalFilePath fp url tmp = fp) := by
  unfold finalFilePath
  constructor <;> intro h <;> simp [h]

/-- C4 witness: with both flags set, the URL temp path wins. -/
theorem url_overrides_file_witness :
    finalFilePath "local.txt" "http://x" "/tmp/dl" = "/tmp/dl" :=
  (url_overrides_file "local.txt" "http://x" "/tmp/dl").1 (by decide)

/-- C5 counterexample: two phone strings with the same digit sequence but
different spacing are keyed to different session files, because only
`'+'` is stripped. -/
theorem session_key_digits_false :
    digitsOf "1 234" = digitsOf "1234"
    ∧ sessionPath "1 234" ≠ sessionPath "1234" := by
  decide

/-- C5 amended: the session file is keyed by the phone identity with all
`'+'` characters removed (other non-numeric characters are kept), so two
phone strings that agree after removing `'+'` share a session file. -/
theorem session_key_plus_stripped (p₁ p₂ : String) :
    sessionPath p₁ = "sessions/" ++ sanitizePhone p₁ ++ ".session"
    ∧ sanitizePhone p₁ = String.mk (p₁.data.filter (fun c => c ≠ '+'))
    ∧ (sanitizePhone p₁ = sanitizePhone p₂ → sessionPath p₁ = sessionPath p₂) := by
  refine ⟨rfl, rfl, ?_⟩
  intro h
  unfold sessionPath
  rw [h]

/-- C5 witness: `"+1234"` and `"1234"` share a session file. -/
theorem session_key_plus_stripped_witness :
    sessionPath "+1234" = sessionPath "1234" :=
  (session_key_plus_stripped "+1234" "1234").2.2 (by decide)

/-- C6: when the status check reports an authorized session, the `run`
callback performs no authentication flow (hence no interactive prompt and
no network authentication call) and proceeds directly to the upload. -/
theorem authorized_skips_auth_flow :
    runCallback true = [RunEvent.upload]
    ∧ RunEvent.authFlow ∉ runCallback true
    ∧ runCallback false = [RunEvent.authFlow, RunEvent.upload] := by
  decide

/-- C9: terms acceptance succeeds exactly when the answer,
lowercased and trimmed, is `"y"` or `"yes"`; every other answer yields
the terms-rejection error. -/
theorem accept_terms_y_or_yes (ans : String) :
    (acceptTermsOfService ans = Except.ok () ↔
      (goTrimSpace (goToLower ans) = "y" ∨ goTrimSpace (goToLower ans) = "yes"))
    ∧ ((goTrimSpace (goToLower ans) ≠ "y" ∧ goTrimSpace (goToLower ans) ≠ "yes") →
      acceptTermsOfService ans = Except.error "terms of service not accepted") := by
  unfold acceptTermsOfService
  by_cases h : goTrimSpace (goToLower ans) ≠ "y" ∧ goTrimSpace (goToLower ans) ≠ "yes"
  · rw [if_pos h]
    exact ⟨⟨fun hc => absurd hc (by simp), fun hc => absurd hc (by tauto)⟩, fun _ => rfl⟩
  · rw [if_neg h]
    push_neg at h
    have hyy : goTrimSpace (goToLower ans) = "y" ∨ goTrimSpace (goToLower ans) = "yes" := by
      by_cases hy : goTrimSpace (goToLower ans) = "y"
      · exact Or.inl hy
      · exact Or.inr (h hy)
    exact ⟨⟨fun _ => hyy, fun _ => rfl⟩, fun hc => absurd hyy (by tauto)⟩

/-- C9 witness: `" YES \n"` is accepted; `"maybe"` is rejected with the
terms error. -/
theorem accept_terms_witness :
    acceptTermsOfService "maybe" = Except.error "terms of service not accepted"
    ∧ (acceptTermsOfService " YES \n" = Except.ok () ↔
      (goTrimSpace (goToLower " YES \n") = "y" ∨ goTrimSpace (goToLower " YES \n") = "yes")) :=
  ⟨(accept_terms_y_or_yes "maybe").2 (by decide),
   (accept_terms_y_or_yes " YES \n").1⟩

/-! ### Claim theorems: transfer ID -/

theorem decodeLE_cons (b : Nat) (bs : List Nat) :
    decodeLE (b :: bs) = decodeLE bs * 256 + b := by
  simp [decodeLE]

theorem decodeLE_injOn : ∀ (bs cs : List Nat), bs.length = cs.length →
    (∀ b ∈ bs, b < 256) → (∀ c ∈ cs, c < 256) →
    decodeLE bs = decodeLE cs → bs = cs := by
  intro bs
  induction bs with
  | nil => intro cs hl _ _ _; cases cs with
    | nil => rfl
    | cons c cs => simp at hl
  | cons b bs ih =>
    intro cs hl hb hc hd
    cases cs with
    | nil => simp at hl
    | cons c cs =>
      rw [decodeLE_cons, decodeLE_cons] at hd
      have hb0 : b < 256 := hb b (List.mem_cons_self b bs)
      have hc0 : c < 256 := hc c (List.mem_cons_self c cs)
      have hbc : b = c ∧ decodeLE bs = decodeLE cs := by omega
      have := ih cs (by simpa using hl) (fun x hx => hb x (List.mem_cons_of_mem b hx))
        (fun x hx => hc x (List.mem_cons_of_mem c hx)) hbc.2
      rw [hbc.1, this]

theorem decodeLE_lt (bs : List Nat) (h : ∀ b ∈ bs, b < 256) :
    decodeLE bs < 256 ^ bs.length := by
  induction bs with
  | nil => simp [decodeLE]
  | cons b bs ih =>
    rw [decodeLE_cons]
    have h1 : decodeLE bs < 256 ^ bs.length := ih (fun x hx => h x (List.mem_cons_of_mem b hx))
    have h2 : b < 256 := h b (List.mem_cons_self b bs)
    have h3 : (256 : Nat) ^ (b :: bs).length = 256 ^ bs.length * 256 := by
      simp [pow_succ]
    rw [h3]
    omega

theorem encodeLE_length (k v : Nat) : (encodeLE k v).length = k := by
  induction k generalizing v with
  | zero => simp [encodeLE]
  | succ k ih => simp [encodeLE, ih]

theorem encodeLE_bytes_lt (k v : Nat) : ∀ b ∈ encodeLE k v, b < 256 := by
  induction k generalizing v with
  | zero => simp [encodeLE]
  | succ k ih =>
    intro b hb
    simp only [encodeLE, List.mem_cons] at hb
    rcases hb with rfl | hb
    · exact Nat.mod_lt _ (by omega)
    · exact ih (v / 256) b hb

theorem decodeLE_encodeLE (k v : Nat) : decodeLE (encodeLE k v) = v % 256 ^ k := by
  induction k generalizing v with
  | zero => simp [encodeLE, decodeLE]; omega
  | succ k ih =>
    rw [encodeLE, decodeLE_cons, ih]
    have : (256 : Nat) ^ (k + 1) = 256 * 256 ^ k := by ring
    rw [this, Nat.mod_mul]
    ring

/-- C8: the transfer ID is the full little-endian decoding of the 8-byte
draw from the cryptographic source: it lies below `2^64`, distinct valid
draws always give distinct IDs, and every 64-bit value is realized by
some draw. -/
theorem transferID_full64_injective (bs cs : List Nat) (v : Nat)
    (hb : ValidBytes bs) (hc : ValidBytes cs) (hv : v < 2 ^ 64) :
    generateRandomID bs < 2 ^ 64
    ∧ (bs ≠ cs → generateRandomID bs ≠ generateRandomID cs)
    ∧ ValidBytes (encodeLE 8 v)
    ∧ generateRandomID (encodeLE 8 v) = v := by
  obtain ⟨hbl, hbb⟩ := hb
  obtain ⟨hcl, hcb⟩ := hc
  refine ⟨?_, ?_, ⟨encodeLE_length 8 v, encodeLE_bytes_lt 8 v⟩, ?_⟩
  · have h := decodeLE_lt bs hbb
    rw [hbl] at h
    have h28 : (256 : Nat) ^ 8 = 2 ^ 64 := by norm_num
    rw [h28] at h
    exact h
  · intro hne hid
    exact hne (decodeLE_injOn bs cs (by rw [hbl, hcl]) hbb hcb hid)
  · have h28 : (256 : Nat) ^ 8 = 2 ^ 64 := by norm_num
    rw [generateRandomID, decodeLE_encodeLE, h28, Nat.mod_eq_of_lt hv]

/-- C8 witness: two concrete distinct byte draws, and a concrete 64-bit
value realized by its encoding. -/
theorem transferID_witness :
    generateRandomID [1, 0, 0, 0, 0, 0, 0, 0] < 2 ^ 64
    ∧ ([1, 0, 0, 0, 0, 0, 0, 0] ≠ [2, 0, 0, 0, 0, 0, 0, 0] →
      generateRandomID [1, 0, 0, 0, 0, 0, 0, 0] ≠ generateRandomID [2, 0, 0, 0, 0, 0, 0, 0])
    ∧ ValidBytes (encodeLE 8 5)
    ∧ generateRandomID (encodeLE 8 5) = 5 :=
  transferID_full64_injective [1, 0, 0, 0, 0, 0, 0, 0] [2, 0, 0, 0, 0, 0, 0, 0] 5
    (by decide) (by decide) (by norm_num)

/-! ### Claim theorems: the reporter goroutine -/

/-- Occurrence count of an event in a trace. -/
def countEv (e : UploadEv) : List UploadEv → Nat
  | [] => 0
  | x :: xs => (if x = e then 1 else 0) + countEv e xs

/-- How many `closeDone` events have happened once the main flow is at a
given program counter. -/
def closeCount : MainPc → Nat
  | MainPc.doneClosed => 1
  | MainPc.returned => 1
  | _ => 0

/-- How many `uploadReturn` events have happened once the main flow is at
a given program counter. -/
def retCount : MainPc → Nat
  | MainPc.uploading => 0
  | _ => 1

theorem ustep_counts {s : UploadSys} {e : UploadEv} {s' : UploadSys} (h : UStep s e s') :
    closeCount s'.main = closeCount s.main + (if e = UploadEv.closeDone then 1 else 0)
    ∧ retCount s'.main = retCount s.main + (if e = UploadEv.uploadReturn then 1 else 0) := by
  cases h <;> simp [closeCount, retCount]

theorem ureaches_counts {s : UploadSys} {tr : List UploadEv} {s' : UploadSys}
    (h : UReaches s tr s') :
    closeCount s'.main = closeCount s.main + countEv UploadEv.closeDone tr
    ∧ retCount s'.main = retCount s.main + countEv UploadEv.uploadReturn tr := by
  induction h with
  | nil s => simp [countEv]
  | cons hst hr ih =>
    obtain ⟨h1, h2⟩ := ustep_counts hst
    obtain ⟨h3, h4⟩ := ih
    simp only [countEv]
    constructor <;> split_ifs at * <;> omega

theorem ureaches_append (s : UploadSys) (pre : List UploadEv) (e : UploadEv)
    (post : List UploadEv) (s' : UploadSys) (h : UReaches s (pre ++ e :: post) s') :
    ∃ s₁ s₂, UReaches s pre s₁ ∧ UStep s₁ e s₂ ∧ UReaches s₂ post s' := by
  induction pre generalizing s with
  | nil =>
    cases h with
    | cons hst hr => exact ⟨s, _, UReaches.nil s, hst, hr⟩
  | cons x xs ih =>
    cases h with
    | cons hst hr =>
      obtain ⟨s₁, s₂, h1, h2, h3⟩ := ih _ hr
      exact ⟨s₁, s₂, UReaches.cons hst h1, h2, h3⟩

theorem countEv_pos_mem (e : UploadEv) (l : List UploadEv) (h : 0 < countEv e l) : e ∈ l := by
  induction l with
  | nil => simp [countEv] at h
  | cons x xs ih =>
    by_cases hx : x = e
    · simp [hx]
    · simp [countEv, hx] at h
      exact List.mem_cons_of_mem x (ih h)

theorem ustep_closeDone_inv {s₁ s₂ : UploadSys} (h : UStep s₁ UploadEv.closeDone s₂) :
    s₁.main = MainPc.uploadDone := by
  cases h; rfl

theorem ustep_exited {s : UploadSys} {e : UploadEv} {s' : UploadSys}
    (h : UStep s e s') (hx : s.rep = RepPc.exited) :
    e ≠ UploadEv.reporterTick ∧ s'.rep = RepPc.exited := by
  cases h <;> simp_all

theorem closeCount_le_one (m : MainPc) : closeCount m ≤ 1 := by
  cases m <;> simp [closeCount]

/-- C3 counterexample: the joined-before-return claim fails — there is a
concrete interleaving in which the `Upload` call has returned, a
reporter tick runs afterwards, and `uploadFile` itself returns while the
reporter goroutine is still running (it was signaled via `close(done)`
but never joined). -/
theorem reporter_joined_claim_false : ¬ ReporterJoinedClaim := by
  intro h
  have hr : UReaches initUploadSys
      [UploadEv.uploadReturn, UploadEv.reporterTick, UploadEv.closeDone, UploadEv.mainReturn]
      ⟨MainPc.returned, RepPc.running, true⟩ :=
    UReaches.cons (UStep.uploadReturn _ _)
      (UReaches.cons (UStep.reporterTick _ _)
        (UReaches.cons (UStep.closeDone _)
          (UReaches.cons (UStep.mainReturn _) (UReaches.nil _))))
  have hc := h _ _ hr rfl
  exact absurd hc.1 (by simp)

/-- C3 amended: on every run (success or error path alike) the reporter
is signaled to stop exactly once — the `done` channel is closed exactly
once, and only after the `Upload` call has returned — and once the
reporter has observed the signal and exited it takes no further steps;
but the goroutine is only signaled, never joined, so a reporter step may
still be observable after `Upload` returns. -/
theorem reporter_signaled_once_not_joined (tr : List UploadEv) (s : UploadSys)
    (h : UReaches initUploadSys tr s) :
    countEv UploadEv.closeDone tr ≤ 1
    ∧ (s.main = MainPc.returned → countEv UploadEv.closeDone tr = 1)
    ∧ (∀ pre post, tr = pre ++ UploadEv.closeDone :: post → UploadEv.uploadReturn ∈ pre)
    ∧ (s.rep = RepPc.exited → ∀ e s', UStep s e s' →
        e ≠ UploadEv.reporterTick ∧ s'.rep = RepPc.exited) := by
  obtain ⟨hclose, hret⟩ := ureaches_counts h
  have h0 : closeCount initUploadSys.main = 0 := rfl
  have h0' : retCount initUploadSys.main = 0 := rfl
  rw [h0] at hclose
  rw [h0'] at hret
  refine ⟨?_, ?_, ?_, ?_⟩
  · have := closeCount_le_one s.main
    omega
  · intro hm
    rw [hm] at hclose
    have h1 : closeCount MainPc.returned = 1 := rfl
    rw [h1] at hclose
    omega
  · intro pre post htr
    subst htr
    obtain ⟨s₁, s₂, hp, hstep, _⟩ := ureaches_append _ _ _ _ _ h
    have h1 : s₁.main = MainPc.uploadDone := ustep_closeDone_inv hstep
    obtain ⟨_, hr2⟩ := ureaches_counts hp
    rw [h1, h0'] at hr2
    have h2 : retCount MainPc.uploadDone = 1 := rfl
    rw [h2] at hr2
    exact countEv_pos_mem _ _ (by omega)
  · intro hx e s' hst
    exact ustep_exited hst hx

/-- C3 witness: on a concrete complete run the stop signal is sent
exactly once. -/
theorem reporter_signaled_once_witness :
    countEv UploadEv.closeDone
      [UploadEv.uploadReturn, UploadEv.closeDone, UploadEv.reporterStop, UploadEv.mainReturn] ≤ 1
    ∧ countEv UploadEv.closeDone
      [UploadEv.uploadReturn, UploadEv.closeDone, UploadEv.reporterStop, UploadEv.mainReturn] = 1 :=
  have hr : UReaches initUploadSys
      [UploadEv.uploadReturn, UploadEv.closeDone, UploadEv.reporterStop, UploadEv.mainReturn]
      ⟨MainPc.returned, RepPc.exited, true⟩ :=
    UReaches.cons (UStep.uploadReturn _ _)
      (UReaches.cons (UStep.closeDone _)
        (UReaches.cons (UStep.reporterStop _)
          (UReaches.cons (UStep.mainReturn _) (UReaches.nil _))))
  ⟨(reporter_signaled_once_not_joined _ _ hr).1,
   (reporter_signaled_once_not_joined _ _ hr).2.1 rfl⟩

end FileUploader
